import Mathlib

/-!
Verification of the HCF middleware (`scrapylib/hcf.py`).

The middleware reads batches of pending links from a remote partitioned
frontier queue, hands the links to the crawl loop, buffers per-slot counts of
newly discovered links (the links themselves are written eagerly), and on
termination decides whether to flush state, delete consumed batches, and start
a successor job.  The definitions below are a shallow embedding of the Python
class `HcfMiddleware`; each definition carries a doc comment naming the method it
translates.
-/

namespace Scrapylib

/-- A batch as returned by the frontier read call `fclient.read`: an opaque
identifier (the id field) and the ordered list (the requests field) of
(fingerprint, qdata) pairs. -/
structure Batch where
  id : String
  requests : List (String × String)
deriving DecidableEq, Repr

/-- Observable events of the generator `HcfMiddleware._get_new_requests`:
yielding a `Request` built from a fingerprint and its qdata, or appending a
batch id to the consumed-batch ledger `self.batch_ids`. -/
inductive Ev where
  | yieldReq : String → String → Ev
  | appendId : String → Ev
deriving DecidableEq, Repr

/-- The events produced while the loop body consumes one batch: every request
of the batch is yielded in order, then the append of the batch id to `self.batch_ids`
runs. -/
def batchEvents (b : Batch) : List Ev :=
  b.requests.map (fun p => Ev.yieldReq p.1 p.2) ++ [Ev.appendId b.id]

/-- Event trace of the loop of `_get_new_requests` (lines 210-216), with
`numLinks` the running `num_links` counter: all requests of the current batch
are yielded and its id appended, and the loop breaks once
`num_links >= self.hs_max_links`. -/
def genTraceAux (maxLinks : Nat) : List Batch → Nat → List Ev
  | [], _ => []
  | b :: bs, numLinks =>
    if maxLinks ≤ numLinks + b.requests.length then batchEvents b
    else batchEvents b ++ genTraceAux maxLinks bs (numLinks + b.requests.length)

/-- Event trace of `_get_new_requests` run against the batches delivered by
`fclient.read`, starting with `num_links = 0`. -/
def genTrace (maxLinks : Nat) (bs : List Batch) : List Ev :=
  genTraceAux maxLinks bs 0

/-- Number of batches the loop of `_get_new_requests` fully consumes before
breaking (each consumed batch runs its whole inner loop, then the cap test). -/
def consumedCountAux (maxLinks : Nat) : List Batch → Nat → Nat
  | [], _ => 0
  | b :: bs, numLinks =>
    if maxLinks ≤ numLinks + b.requests.length then 1
    else consumedCountAux maxLinks bs (numLinks + b.requests.length) + 1

/-- Number of batches consumed starting from `num_links = 0`. -/
def consumedCount (maxLinks : Nat) (bs : List Batch) : Nat :=
  consumedCountAux maxLinks bs 0

/-- The (fingerprint, qdata) pairs yielded along a trace. -/
def yieldedItems (evs : List Ev) : List (String × String) :=
  evs.filterMap (fun e => match e with
    | Ev.yieldReq fp d => some (fp, d)
    | Ev.appendId _ => none)

/-- The batch ids appended to the ledger along a trace. -/
def appendedIds (evs : List Ev) : List String :=
  evs.filterMap (fun e => match e with
    | Ev.yieldReq _ _ => none
    | Ev.appendId i => some i)

/-- Total number of links available across a list of batches. -/
def linkCount (bs : List Batch) : Nat :=
  (bs.map (fun b => b.requests.length)).sum

lemma yieldedItems_append (l₁ l₂ : List Ev) :
    yieldedItems (l₁ ++ l₂) = yieldedItems l₁ ++ yieldedItems l₂ := by
  simp [yieldedItems, List.filterMap_append]

lemma appendedIds_append (l₁ l₂ : List Ev) :
    appendedIds (l₁ ++ l₂) = appendedIds l₁ ++ appendedIds l₂ := by
  simp [appendedIds, List.filterMap_append]

lemma yieldedItems_map_yield (l : List (String × String)) :
    yieldedItems (l.map (fun p => Ev.yieldReq p.1 p.2)) = l := by
  induction l with
  | nil => rfl
  | cons p l ih => simp [yieldedItems] at ih ⊢; exact ih

lemma appendedIds_map_yield (l : List (String × String)) :
    appendedIds (l.map (fun p => Ev.yieldReq p.1 p.2)) = [] := by
  induction l with
  | nil => rfl
  | cons p l ih => simp [appendedIds] at ih ⊢

lemma yieldedItems_batchEvents (b : Batch) :
    yieldedItems (batchEvents b) = b.requests := by
  simp [batchEvents, yieldedItems_append, yieldedItems_map_yield]
  rfl

lemma appendedIds_batchEvents (b : Batch) :
    appendedIds (batchEvents b) = [b.id] := by
  simp [batchEvents, appendedIds_append, appendedIds_map_yield]
  rfl

lemma linkCount_nil : linkCount [] = 0 := rfl

lemma linkCount_cons (b : Batch) (bs : List Batch) :
    linkCount (b :: bs) = b.requests.length + linkCount bs := by
  simp [linkCount]

/-- The trace of `_get_new_requests` is exactly the per-batch event blocks of
the consumed batch prefix, concatenated in order. -/
lemma genTraceAux_eq_flatten (maxLinks : Nat) (bs : List Batch) (n : Nat) :
    genTraceAux maxLinks bs n =
      ((bs.take (consumedCountAux maxLinks bs n)).map batchEvents).flatten := by
  induction bs generalizing n with
  | nil => simp [genTraceAux, consumedCountAux]
  | cons b bs ih =>
    by_cases hc : maxLinks ≤ n + b.requests.length
    · simp [genTraceAux, consumedCountAux, if_pos hc]
    · simp [genTraceAux, consumedCountAux, if_neg hc, List.take_succ_cons, ih]

lemma genTrace_eq_flatten (maxLinks : Nat) (bs : List Batch) :
    genTrace maxLinks bs =
      ((bs.take (consumedCount maxLinks bs)).map batchEvents).flatten :=
  genTraceAux_eq_flatten maxLinks bs 0

lemma consumedCountAux_le_length (maxLinks : Nat) (bs : List Batch) (n : Nat) :
    consumedCountAux maxLinks bs n ≤ bs.length := by
  induction bs generalizing n with
  | nil => simp [consumedCountAux]
  | cons b bs ih =>
    by_cases hc : maxLinks ≤ n + b.requests.length
    · simp [consumedCountAux, if_pos hc]
    · have := ih (n + b.requests.length)
      simp only [consumedCountAux, if_neg hc, List.length_cons]
      omega

/-- The items yielded by a trace of consumed batches are all their requests. -/
lemma yieldedItems_flatten_batches (l : List Batch) :
    yieldedItems ((l.map batchEvents).flatten) = (l.map Batch.requests).flatten := by
  induction l with
  | nil => rfl
  | cons b bs ih =>
    simp only [List.map_cons, List.flatten_cons, yieldedItems_append, ih,
      yieldedItems_batchEvents]

/-- The ids appended by a trace of consumed batches are their ids, in order. -/
lemma appendedIds_flatten_batches (l : List Batch) :
    appendedIds ((l.map batchEvents).flatten) = l.map Batch.id := by
  induction l with
  | nil => rfl
  | cons b bs ih =>
    simp only [List.map_cons, List.flatten_cons, appendedIds_append, ih,
      appendedIds_batchEvents, List.singleton_append]

lemma length_flatten_requests (l : List Batch) :
    ((l.map Batch.requests).flatten).length = linkCount l := by
  induction l with
  | nil => rfl
  | cons b bs ih => simp [linkCount_cons, ih]

/-- Lower bound: the pull never yields fewer than `min (cap - n) total`. -/
lemma genTraceAux_min_length (maxLinks : Nat) (bs : List Batch) (n : Nat) :
    min (maxLinks - n) (linkCount bs) ≤
      (yieldedItems (genTraceAux maxLinks bs n)).length := by
  induction bs generalizing n with
  | nil => simp [genTraceAux, linkCount]
  | cons b bs ih =>
    by_cases hc : maxLinks ≤ n + b.requests.length
    · rw [genTraceAux, if_pos hc, yieldedItems_batchEvents]
      omega
    · have hrec := ih (n + b.requests.length)
      rw [genTraceAux, if_neg hc, yieldedItems_append, yieldedItems_batchEvents,
        List.length_append, linkCount_cons]
      omega

/-- The loop only continues past a batch while the cap is not yet reached. -/
lemma consumedCountAux_minimal (maxLinks : Nat) (bs : List Batch) (n : Nat) :
    ∀ j, j < consumedCountAux maxLinks bs n →
      j = 0 ∨ n + linkCount (bs.take j) < maxLinks := by
  induction bs generalizing n with
  | nil => simp [consumedCountAux]
  | cons b bs ih =>
    intro j hj
    by_cases hc : maxLinks ≤ n + b.requests.length
    · rw [consumedCountAux, if_pos hc] at hj
      interval_cases j
      exact Or.inl rfl
    · rw [consumedCountAux, if_neg hc] at hj
      match j with
      | 0 => exact Or.inl rfl
      | j + 1 =>
        right
        rcases ih (n + b.requests.length) j (by omega) with h0 | hlt
        · subst h0
          simp only [List.take_succ_cons, List.take_zero, linkCount_cons,
            linkCount_nil]
          omega
        · simp only [List.take_succ_cons, linkCount_cons]
          omega

/-- If the loop broke before exhausting the batches, the cap was reached. -/
lemma consumedCountAux_cap_reached (maxLinks : Nat) (bs : List Batch) (n : Nat)
    (h : consumedCountAux maxLinks bs n < bs.length) :
    maxLinks ≤ n + linkCount (bs.take (consumedCountAux maxLinks bs n)) := by
  induction bs generalizing n with
  | nil => simp [consumedCountAux] at h
  | cons b bs ih =>
    by_cases hc : maxLinks ≤ n + b.requests.length
    · rw [consumedCountAux, if_pos hc]
      simpa [linkCount_cons] using hc
    · rw [consumedCountAux, if_neg hc] at h ⊢
      have hrec : consumedCountAux maxLinks bs (n + b.requests.length) < bs.length := by
        rw [List.length_cons] at h
        omega
      have := ih (n + b.requests.length) hrec
      simp only [List.take_succ_cons, linkCount_cons]
      omega

/-- If the loop consumed every batch, everything available was yielded. -/
lemma consumedCountAux_all (maxLinks : Nat) (bs : List Batch) (n : Nat)
    (h : consumedCountAux maxLinks bs n = bs.length) :
    (yieldedItems (genTraceAux maxLinks bs n)).length = linkCount bs := by
  rw [genTraceAux_eq_flatten, h, List.take_length, yieldedItems_flatten_batches,
    length_flatten_requests]

lemma flatten_split_of_mem {α β : Type} (f : α → List β) (l : List α) (a : α)
    (ha : a ∈ l) :
    ∃ pre post, (l.map f).flatten = pre ++ f a ++ post := by
  rcases List.append_of_mem ha with ⟨s, t, rfl⟩
  exact ⟨(s.map f).flatten, (t.map f).flatten, by simp⟩

/-- Batches used by end-to-end scenario 1 of the spec: one partition holding
2 pending batches of 3 links each. -/
def scenarioBatches : List Batch :=
  [⟨"b1", [("u1", "d1"), ("u2", "d2"), ("u3", "d3")]⟩,
   ⟨"b2", [("u4", "d4"), ("u5", "d5"), ("u6", "d6")]⟩]

/-- C2: `pull` stops yielding once the cumulative number of yielded links
reaches the cap but never truncates mid-batch: the yielded links are exactly
the links of the consumed batch prefix, at least `min cap totalAvailable`
links are yielded, the loop only continued past a batch while still under the
cap, a break before exhausting the batches means the cap was reached, and the
ledger afterwards holds exactly the consumed batch ids. -/
theorem pull_cap_overshoots_to_batch_boundary (maxLinks : Nat) (bs : List Batch)
    (hpos : 0 < maxLinks) :
    yieldedItems (genTrace maxLinks bs) =
      ((bs.take (consumedCount maxLinks bs)).map Batch.requests).flatten
    ∧ min maxLinks (linkCount bs) ≤ (yieldedItems (genTrace maxLinks bs)).length
    ∧ (∀ j, j < consumedCount maxLinks bs → linkCount (bs.take j) < maxLinks)
    ∧ (consumedCount maxLinks bs < bs.length →
        maxLinks ≤ linkCount (bs.take (consumedCount maxLinks bs)))
    ∧ appendedIds (genTrace maxLinks bs) =
        (bs.take (consumedCount maxLinks bs)).map Batch.id := by
  refine ⟨?_, ?_, ?_, ?_, ?_⟩
  · rw [genTrace_eq_flatten, yieldedItems_flatten_batches]
  · have h := genTraceAux_min_length maxLinks bs 0
    simpa [genTrace] using h
  · intro j hj
    rcases consumedCountAux_minimal maxLinks bs 0 j hj with h0 | h
    · subst h0
      simpa [linkCount_nil] using hpos
    · simpa using h
  · intro h
    simpa using consumedCountAux_cap_reached maxLinks bs 0 h
  · rw [genTrace_eq_flatten, appendedIds_flatten_batches]

/-- Witness for C2 at end-to-end scenario 1: cap 5, two batches of 3 links
each pulls all 6 links and records both batch ids. -/
theorem pull_cap_overshoots_witness :
    (yieldedItems (genTrace 5 scenarioBatches)).length = 6
    ∧ appendedIds (genTrace 5 scenarioBatches) = ["b1", "b2"] := by
  have h := pull_cap_overshoots_to_batch_boundary 5 scenarioBatches (by norm_num)
  exact ⟨by rw [h.1]; rfl, by rw [h.2.2.2.2]; rfl⟩

/-- C3: every batch id read from the remote queue is appended to the ledger
exactly once, in the order received; the append of a batch id sits in the
trace after all links of that batch have been yielded; and for a read that
fails after delivering only the first `j` batches, the appended ids are
exactly the ids of the batches fully consumed among those delivered — never a
partially consumed one. -/
theorem ledger_appends_whole_batches_in_order (maxLinks : Nat) (bs : List Batch)
    (hnd : (bs.map Batch.id).Nodup) :
    appendedIds (genTrace maxLinks bs) =
      (bs.take (consumedCount maxLinks bs)).map Batch.id
    ∧ (appendedIds (genTrace maxLinks bs)).Nodup
    ∧ (∀ b ∈ bs.take (consumedCount maxLinks bs), ∃ pre post,
        genTrace maxLinks bs =
          pre ++ b.requests.map (fun p => Ev.yieldReq p.1 p.2)
            ++ Ev.appendId b.id :: post)
    ∧ (∀ j, appendedIds (genTrace maxLinks (bs.take j)) =
        ((bs.take j).take (consumedCount maxLinks (bs.take j))).map Batch.id) := by
  refine ⟨?_, ?_, ?_, ?_⟩
  · rw [genTrace_eq_flatten, appendedIds_flatten_batches]
  · rw [genTrace_eq_flatten, appendedIds_flatten_batches, List.map_take]
    exact (List.take_sublist _ _).nodup hnd
  · intro b hb
    rcases flatten_split_of_mem batchEvents (bs.take (consumedCount maxLinks bs)) b hb with
      ⟨pre, post, heq⟩
    refine ⟨pre, post, ?_⟩
    rw [genTrace_eq_flatten, heq, batchEvents]
    simp
  · intro j
    rw [genTrace_eq_flatten, appendedIds_flatten_batches]

/-- Witness for C3 at the scenario-1 batches, whose ids are distinct. -/
theorem ledger_appends_witness :
    appendedIds (genTrace 5 scenarioBatches) = ["b1", "b2"]
    ∧ (appendedIds (genTrace 5 scenarioBatches)).Nodup := by
  have h := ledger_appends_whole_batches_in_order 5 scenarioBatches (by decide)
  exact ⟨by rw [h.1]; rfl, h.2.1⟩

/-- Actions performed by `HcfMiddleware` during shutdown handling, in program
order: `_save_new_links_count`, `_delete_processed_ids`, `fclient.close()`,
`hsclient.close()`, and `_start_job`. -/
inductive CloseAct where
  | saveNewLinks
  | deleteProcessed
  | fclientClose
  | hsclientClose
  | startJob
deriving DecidableEq, Repr

/-- Action trace of `HcfMiddleware.close_spider` (lines 183-204): the flush
and the batch deletion run only when the reason equals "finished"; both clients are
closed unconditionally afterwards; then a new job is started when
`hs_start_job_enabled` holds, the reason is in `hs_start_job_on_reason`, and
`self.has_new_requests` or the spider lacking the `dummy` attribute — that
attribute being present exactly on spiders scheduled by a previous run. -/
def close_spider (reason : String) (startJobEnabled : Bool)
    (startJobOnReason : List String) (hasNewRequests : Bool) (dummy : Bool) :
    List CloseAct :=
  (if reason = "finished" then [CloseAct.saveNewLinks, CloseAct.deleteProcessed]
   else [])
  ++ [CloseAct.fclientClose, CloseAct.hsclientClose]
  ++ (if startJobEnabled = true ∧ reason ∈ startJobOnReason
        ∧ (hasNewRequests = true ∨ dummy = false)
      then [CloseAct.startJob] else [])

/-- C1: the flush of new-link state and the deletion of the consumed batches
happen if and only if the reason is the clean finish reason, both before the
client close calls, while both close calls happen on every termination. -/
theorem close_spider_flush_ack_iff_finished (reason : String) (enabled : Bool)
    (onReasons : List String) (hasNew dummy : Bool) :
    (CloseAct.saveNewLinks ∈ close_spider reason enabled onReasons hasNew dummy
      ↔ reason = "finished")
    ∧ (CloseAct.deleteProcessed ∈ close_spider reason enabled onReasons hasNew dummy
      ↔ reason = "finished")
    ∧ CloseAct.fclientClose ∈ close_spider reason enabled onReasons hasNew dummy
    ∧ CloseAct.hsclientClose ∈ close_spider reason enabled onReasons hasNew dummy
    ∧ (reason = "finished" → ∃ rest,
        close_spider reason enabled onReasons hasNew dummy =
          CloseAct.saveNewLinks :: CloseAct.deleteProcessed ::
          CloseAct.fclientClose :: CloseAct.hsclientClose :: rest)
    ∧ (reason ≠ "finished" → ∃ rest,
        close_spider reason enabled onReasons hasNew dummy =
          CloseAct.fclientClose :: CloseAct.hsclientClose :: rest) := by
  by_cases hr : reason = "finished" <;>
    by_cases hsj : enabled = true ∧ reason ∈ onReasons
        ∧ (hasNew = true ∨ dummy = false) <;>
    simp [close_spider, hr, hsj]

/-- Witness for C1 at end-to-end scenario 4: reason `finished` flushes and
acknowledges before the closes; reason `shutdown_error` skips both yet still
closes the clients. -/
theorem close_spider_flush_ack_witness :
    (∃ rest, close_spider "finished" false [] true false =
      CloseAct.saveNewLinks :: CloseAct.deleteProcessed ::
      CloseAct.fclientClose :: CloseAct.hsclientClose :: rest)
    ∧ CloseAct.saveNewLinks ∉ close_spider "shutdown_error" false [] true false
    ∧ CloseAct.deleteProcessed ∉ close_spider "shutdown_error" false [] true false
    ∧ CloseAct.fclientClose ∈ close_spider "shutdown_error" false [] true false
    ∧ CloseAct.hsclientClose ∈ close_spider "shutdown_error" false [] true false := by
  have h1 := close_spider_flush_ack_iff_finished "finished" false [] true false
  have h2 := close_spider_flush_ack_iff_finished "shutdown_error" false [] true false
  refine ⟨h1.2.2.2.2.1 rfl, ?_, ?_, h2.2.2.1, h2.2.2.2.1⟩
  · intro hmem
    exact absurd (h2.1.mp hmem) (by decide)
  · intro hmem
    exact absurd (h2.2.1.mp hmem) (by decide)

/-- C6 amended: a successor run is requested exactly when chaining is
enabled, the reason is in the chain-triggering set, and either frontier work
was observed or this run WAS the very first run (no `dummy` marker). -/
theorem start_job_iff_condition (reason : String) (enabled : Bool)
    (onReasons : List String) (hasNew dummy : Bool) :
    CloseAct.startJob ∈ close_spider reason enabled onReasons hasNew dummy ↔
      (enabled = true ∧ reason ∈ onReasons ∧ (hasNew = true ∨ dummy = false)) := by
  by_cases hr : reason = "finished" <;>
    by_cases hsj : enabled = true ∧ reason ∈ onReasons
        ∧ (hasNew = true ∨ dummy = false) <;>
    simp [close_spider, hr, hsj]

/-- The successor-run condition exactly as claim C6 words it: chaining
enabled, reason in the configured set, and frontier work observed or this run
was NOT the very first run — a non-first run being one whose spider carries
the `dummy` marker set by the scheduling call of the previous run. -/
def claimedStartJobCond (enabled : Bool) (reason : String)
    (onReasons : List String) (hasNew dummy : Bool) : Prop :=
  enabled = true ∧ reason ∈ onReasons ∧ (hasNew = true ∨ dummy = true)

/-- Counterexample to C6 as stated: on a very first run (no `dummy` marker)
with chaining enabled, reason `finished`, and no frontier work observed, the
code does request a successor run while the claimed condition is false. -/
theorem start_job_claim_counterexample :
    CloseAct.startJob ∈ close_spider "finished" true ["finished"] false false
    ∧ ¬ claimedStartJobCond true "finished" ["finished"] false false := by
  constructor
  · simp [close_spider]
  · intro h
    rcases h.2.2 with h1 | h1 <;> exact absurd h1 (by decide)

/-- The host-framework signals the middleware interacts with. -/
inductive Sig where
  | spider_closed
  | spider_idle
deriving DecidableEq, Repr

/-- Signal connections made in `HcfMiddleware.__init__` (line 113): the only
`crawler.signals.connect` call registers `self.close_spider` for
`signals.spider_closed`; no handler is registered for any other signal. -/
def hcfSignalConnections : List Sig := [Sig.spider_closed]

/-- Actions the middleware performs when a signal fires: every registered
connection for that signal runs `close_spider`; a signal with no registered
connection triggers nothing. -/
def signalActions (s : Sig) (reason : String) (enabled : Bool)
    (onReasons : List String) (hasNew dummy : Bool) : List CloseAct :=
  (hcfSignalConnections.filter (fun t => t == s)).flatMap
    (fun _ => close_spider reason enabled onReasons hasNew dummy)

/-- C5 amended: the middleware registers no idle handler — its only signal
connection is `close_spider` on `spider_closed` — so when the crawl loop
reports idle, no flush, no acknowledge, and no pull are performed and no
do-not-terminate signal is raised; the idle signal triggers no action at
all. -/
theorem no_idle_handler (reason : String) (enabled : Bool)
    (onReasons : List String) (hasNew dummy : Bool) :
    signalActions Sig.spider_idle reason enabled onReasons hasNew dummy = []
    ∧ ∀ s ∈ hcfSignalConnections, s = Sig.spider_closed := by
  constructor
  · rfl
  · intro s hs
    simpa [hcfSignalConnections] using hs

/-- Witness for the amended C5 statement at a concrete configuration. -/
theorem no_idle_handler_witness :
    signalActions Sig.spider_idle "finished" true ["finished"] true false = []
    ∧ Sig.spider_closed = Sig.spider_closed := by
  have h := no_idle_handler "finished" true ["finished"] true false
  exact ⟨h.1, h.2 Sig.spider_closed (by decide)⟩

/-- Counterexample to C5 as stated: when the idle signal fires, the
middleware performs no action whatsoever — in particular neither the new-link
flush nor the batch acknowledgement claimed to happen on idle. -/
theorem idle_triggers_no_flush_counterexample :
    signalActions Sig.spider_idle "running" true ["finished"] true true = []
    ∧ CloseAct.saveNewLinks ∉
        signalActions Sig.spider_idle "running" true ["finished"] true true
    ∧ CloseAct.deleteProcessed ∉
        signalActions Sig.spider_idle "running" true ["finished"] true true := by
  refine ⟨rfl, ?_, ?_⟩ <;> simp [signalActions, hcfSignalConnections]

/-- Items emitted by `process_start_requests`: a request rebuilt from a
frontier fingerprint with its qdata, or a request from the externally
supplied `start_requests`. -/
inductive StartOut where
  | fromFrontier : String → String → StartOut
  | fromSeeds : String → StartOut
deriving DecidableEq, Repr

/-- Translation of `HcfMiddleware.process_start_requests` (lines 138-156):
yield every request pulled by `_get_new_requests`, setting
`has_new_requests` on the first one; afterwards, yield the externally
supplied start requests only when nothing came from the frontier and the
spider has no `dummy` attribute (i.e. this is the very first job). -/
def process_start_requests (maxLinks : Nat) (bs : List Batch)
    (seeds : List String) (dummy : Bool) : List StartOut × Bool :=
  let frontierReqs := yieldedItems (genTrace maxLinks bs)
  let hasNew : Bool := !frontierReqs.isEmpty
  (frontierReqs.map (fun p => StartOut.fromFrontier p.1 p.2)
    ++ (if hasNew = false ∧ dummy = false then seeds.map StartOut.fromSeeds
        else []),
   hasNew)

/-- C7 amended: if the pull yields at least one frontier item those items are
emitted and the seed work is suppressed; if the pull yields nothing the seed
work is emitted only when this is the very first run (no `dummy` attribute),
and on a non-first run nothing is emitted; `has_new_requests` ends up true
exactly when a frontier-origin item was emitted. -/
theorem start_requests_policy (maxLinks : Nat) (bs : List Batch)
    (seeds : List String) (dummy : Bool) :
    (yieldedItems (genTrace maxLinks bs) ≠ [] →
      (process_start_requests maxLinks bs seeds dummy).1 =
        (yieldedItems (genTrace maxLinks bs)).map
          (fun p => StartOut.fromFrontier p.1 p.2)
      ∧ (process_start_requests maxLinks bs seeds dummy).2 = true)
    ∧ (yieldedItems (genTrace maxLinks bs) = [] → dummy = false →
      (process_start_requests maxLinks bs seeds dummy).1 =
        seeds.map StartOut.fromSeeds
      ∧ (process_start_requests maxLinks bs seeds dummy).2 = false)
    ∧ (yieldedItems (genTrace maxLinks bs) = [] → dummy = true →
      (process_start_requests maxLinks bs seeds dummy).1 = []
      ∧ (process_start_requests maxLinks bs seeds dummy).2 = false)
    ∧ ((process_start_requests maxLinks bs seeds dummy).2 = true ↔
      ∃ fp d, StartOut.fromFrontier fp d ∈
        (process_start_requests maxLinks bs seeds dummy).1) := by
  cases hfr : yieldedItems (genTrace maxLinks bs) with
  | nil =>
    cases dummy <;> simp [process_start_requests, hfr]
  | cons p l =>
    refine ⟨fun _ => ⟨by simp [process_start_requests, hfr], by
      simp [process_start_requests, hfr]⟩, by simp [hfr], by simp [hfr], ?_⟩
    constructor
    · intro _
      exact ⟨p.1, p.2, by simp [process_start_requests, hfr]⟩
    · intro _
      simp [process_start_requests, hfr]

/-- Witness for the amended C7 statement at end-to-end scenario 2: empty
frontier, seeds `[X, Y]`, first run — exactly the seeds are emitted and
`has_new_requests` is false. -/
theorem start_requests_policy_witness :
    (process_start_requests 1000 [] ["X", "Y"] false).1 =
      [StartOut.fromSeeds "X", StartOut.fromSeeds "Y"]
    ∧ (process_start_requests 1000 [] ["X", "Y"] false).2 = false := by
  have h := start_requests_policy 1000 [] ["X", "Y"] false
  have he := (h.2.1 rfl rfl)
  exact ⟨by rw [he.1]; rfl, he.2⟩

/-- Counterexample to C7 as stated: on a non-first run (`dummy` attribute
present) with an empty frontier, the seed work is NOT emitted — the start
yields nothing, contradicting "if pull yields nothing the externally supplied
seed work is emitted instead". -/
theorem start_requests_seed_counterexample :
    (process_start_requests 1000 [] ["X"] true).1 = []
    ∧ (process_start_requests 1000 [] ["X"] true).1 ≠
        ["X"].map StartOut.fromSeeds := by
  exact ⟨rfl, by decide⟩

/-- One delete request against the remote queue, as issued by
`fclient.delete(self.hs_frontier, self.hs_consume_from_slot, self.batch_ids)`. -/
structure DeleteCall where
  frontier : String
  slot : String
  ids : List String
deriving DecidableEq, Repr

/-- Translation of `HcfMiddleware._delete_processed_ids` (lines 226-231): one
delete call carrying the whole current ledger is issued first; the assignment
`self.batch_ids = []` runs only afterwards, so when the delete call raises
(`ok = false`) the assignment is never reached and the ledger keeps its old
value.  Returns the issued calls and the resulting ledger. -/
def delete_processed_ids (frontier slot : String) (batchIds : List String)
    (ok : Bool) : List DeleteCall × List String :=
  ([⟨frontier, slot, batchIds⟩], if ok then [] else batchIds)

/-- C4: acknowledge sends a single delete request carrying the entire current
ledger, clears the ledger exactly when the call succeeds, leaves it untouched
when the call raises so that a retry resends the same identifiers, and a
second acknowledge after a success is a no-op delete of the empty ledger. -/
theorem acknowledge_single_call_ledger (frontier slot : String)
    (ids : List String) :
    (∀ ok, (delete_processed_ids frontier slot ids ok).1 =
      [⟨frontier, slot, ids⟩])
    ∧ (delete_processed_ids frontier slot ids true).2 = []
    ∧ (delete_processed_ids frontier slot ids false).2 = ids
    ∧ delete_processed_ids frontier slot
        (delete_processed_ids frontier slot ids false).2 true =
        ([⟨frontier, slot, ids⟩], [])
    ∧ (delete_processed_ids frontier slot
        (delete_processed_ids frontier slot ids true).2 true).1 =
        [⟨frontier, slot, []⟩] :=
  ⟨fun _ => rfl, rfl, rfl, rfl, rfl⟩

/-- An item flowing through `process_spider_output`: a request with its
method, url, `use_hcf` meta flag and `hcf_params` meta dict, or a scraped
(non-request) result. -/
inductive SpItem where
  | req : String → String → Bool → List (String × String) → SpItem
  | scraped : String → SpItem
deriving DecidableEq, Repr

/-- Python dict `d.update(u)`: existing keys are overwritten in place, new
keys are appended in the order they appear in `u`. -/
def dictUpdate (d u : List (String × String)) : List (String × String) :=
  d.map (fun p => match u.find? (fun q => q.1 == p.1) with
    | some q => (p.1, q.2)
    | none => p)
  ++ u.filter (fun q => !(d.any (fun p => p.1 == q.1)))

/-- The fingerprint record built at lines 166-169:
first a one-entry dict mapping the key fp to the request url, then updated
with `hcf_params` when present (an
absent `hcf_params` is the empty update). -/
def fpRecord (url : String) (hcfParams : List (String × String)) :
    List (String × String) :=
  dictUpdate [("fp", url)] hcfParams

/-- Observable events of `process_spider_output`: re-yielding an item to the
crawl loop, an `fclient.add` call, a `new_links_count` increment, or the
unsupported-method error log. -/
inductive OutEv where
  | yieldItem : SpItem → OutEv
  | addCall : String → String → List (List (String × String)) → OutEv
  | countInc : String → OutEv
  | logUnsupported : String → OutEv
deriving DecidableEq, Repr

/-- Translation of the per-item body of `HcfMiddleware.process_spider_output`
(lines 158-181): a request with `use_hcf` and method GET is captured — one
`fclient.add(self.hs_frontier, slot, [fp])` call plus a count increment, and
the request is not re-yielded; a `use_hcf` request with any other method is
logged as unsupported and re-yielded; everything else is re-yielded
unchanged.  `slotf` is the slot callback (the `slot_callback` of the spider or the
default `_get_slot`). -/
def processItem (frontier : String) (slotf : SpItem → String) (it : SpItem) :
    List OutEv :=
  match it with
  | SpItem.req method url useHcf hcfParams =>
    if useHcf = true then
      if method = "GET" then
        [OutEv.addCall frontier (slotf it) [fpRecord url hcfParams],
         OutEv.countInc (slotf it)]
      else [OutEv.logUnsupported url, OutEv.yieldItem it]
    else [OutEv.yieldItem it]
  | SpItem.scraped _ => [OutEv.yieldItem it]

/-- Event trace of `process_spider_output` over the whole result iterable. -/
def process_spider_output (frontier : String) (slotf : SpItem → String)
    (items : List SpItem) : List OutEv :=
  items.flatMap (processItem frontier slotf)

/-- A request is captured into the frontier iff it is marked `use_hcf` and
uses the GET method. -/
def isCaptured : SpItem → Bool
  | SpItem.req m _ useHcf _ => useHcf && decide (m = "GET")
  | SpItem.scraped _ => false

/-- Whether the item is a request marked `use_hcf`. -/
def isFrontierMarked : SpItem → Bool
  | SpItem.req _ _ useHcf _ => useHcf
  | SpItem.scraped _ => false

/-- Method of an item (requests only; scraped items have none). -/
def methodOf : SpItem → String
  | SpItem.req m _ _ _ => m
  | SpItem.scraped _ => ""

/-- Url of a request item. -/
def urlOf : SpItem → String
  | SpItem.req _ u _ _ => u
  | SpItem.scraped s => s

/-- The `hcf_params` meta dict of a request item. -/
def paramsOf : SpItem → List (String × String)
  | SpItem.req _ _ _ ps => ps
  | SpItem.scraped _ => []

/-- Items re-yielded to the crawl loop along a trace. -/
def yieldedOf (evs : List OutEv) : List SpItem :=
  evs.filterMap (fun e => match e with
    | OutEv.yieldItem it => some it
    | _ => none)

/-- The `fclient.add` calls issued along a trace. -/
def addCallsOf (evs : List OutEv) :
    List (String × String × List (List (String × String))) :=
  evs.filterMap (fun e => match e with
    | OutEv.addCall f s fps => some (f, s, fps)
    | _ => none)

/-- The unsupported-method error logs along a trace. -/
def logsOf (evs : List OutEv) : List String :=
  evs.filterMap (fun e => match e with
    | OutEv.logUnsupported u => some u
    | _ => none)

lemma yieldedOf_append (l₁ l₂ : List OutEv) :
    yieldedOf (l₁ ++ l₂) = yieldedOf l₁ ++ yieldedOf l₂ := by
  simp [yieldedOf, List.filterMap_append]

lemma addCallsOf_append (l₁ l₂ : List OutEv) :
    addCallsOf (l₁ ++ l₂) = addCallsOf l₁ ++ addCallsOf l₂ := by
  simp [addCallsOf, List.filterMap_append]

lemma logsOf_append (l₁ l₂ : List OutEv) :
    logsOf (l₁ ++ l₂) = logsOf l₁ ++ logsOf l₂ := by
  simp [logsOf, List.filterMap_append]

lemma yieldedOf_processItem (frontier : String) (slotf : SpItem → String)
    (it : SpItem) :
    yieldedOf (processItem frontier slotf it) =
      if isCaptured it then [] else [it] := by
  cases it with
  | req m u useHcf ps =>
    cases useHcf
    · simp [processItem, isCaptured, yieldedOf]
    · by_cases hm : m = "GET" <;>
        simp [processItem, isCaptured, yieldedOf, hm]
  | scraped s => simp [processItem, isCaptured, yieldedOf]

lemma addCallsOf_processItem (frontier : String) (slotf : SpItem → String)
    (it : SpItem) :
    addCallsOf (processItem frontier slotf it) =
      if isCaptured it
      then [(frontier, slotf it, [fpRecord (urlOf it) (paramsOf it)])]
      else [] := by
  cases it with
  | req m u useHcf ps =>
    cases useHcf
    · simp [processItem, isCaptured, addCallsOf]
    · by_cases hm : m = "GET" <;>
        simp [processItem, isCaptured, addCallsOf, hm, urlOf, paramsOf]
  | scraped s => simp [processItem, isCaptured, addCallsOf]

lemma logsOf_processItem (frontier : String) (slotf : SpItem → String)
    (it : SpItem) :
    logsOf (processItem frontier slotf it) =
      if isFrontierMarked it && !decide (methodOf it = "GET")
      then [urlOf it] else [] := by
  cases it with
  | req m u useHcf ps =>
    cases useHcf
    · simp [processItem, isFrontierMarked, logsOf]
    · by_cases hm : m = "GET" <;>
        simp [processItem, isFrontierMarked, methodOf, logsOf, hm, urlOf]
  | scraped s => simp [processItem, isFrontierMarked, logsOf]

/-- C8: over a whole crawl-loop result list, exactly the `use_hcf` GET
requests are captured (removed from the re-yielded stream), every other item
— `use_hcf` requests with another method, unmarked requests, and non-request
items — is passed through unchanged in order, each captured item issues an
add call, and each `use_hcf` non-GET request is logged as unsupported. -/
theorem spider_output_capture_policy (frontier : String)
    (slotf : SpItem → String) (items : List SpItem) :
    yieldedOf (process_spider_output frontier slotf items) =
      items.filter (fun it => !isCaptured it)
    ∧ (addCallsOf (process_spider_output frontier slotf items)).length =
      (items.filter isCaptured).length
    ∧ logsOf (process_spider_output frontier slotf items) =
      (items.filter
        (fun it => isFrontierMarked it && !decide (methodOf it = "GET"))).map
        urlOf := by
  induction items with
  | nil => exact ⟨rfl, rfl, rfl⟩
  | cons it rest ih =>
    have hstep : process_spider_output frontier slotf (it :: rest) =
        processItem frontier slotf it ++ process_spider_output frontier slotf rest := by
      simp [process_spider_output]
    refine ⟨?_, ?_, ?_⟩
    · rw [hstep, yieldedOf_append, yieldedOf_processItem, ih.1,
        List.filter_cons]
      by_cases hc : isCaptured it <;> simp [hc]
    · rw [hstep, addCallsOf_append, addCallsOf_processItem, List.filter_cons]
      by_cases hc : isCaptured it <;> simp [hc, ih.2.1]
    · rw [hstep, logsOf_append, logsOf_processItem, List.filter_cons]
      by_cases hc : isFrontierMarked it && !decide (methodOf it = "GET") <;>
        simp [hc, ih.2.2]

/-- A value stored in the `new_links_count` defaultdict: Python ints or
Python lists (the two default factories occurring in the source). -/
inductive DVal where
  | vint : Int → DVal
  | vlist : List Int → DVal
deriving DecidableEq, Repr

/-- A Python `collections.defaultdict`: the value produced by the default
factory for missing keys, and the stored entries in insertion order. -/
structure DDict where
  dfl : DVal
  entries : List (String × DVal)
deriving DecidableEq, Repr

/-- Lookup in the entry list (first matching key wins). -/
def getEntries : List (String × DVal) → String → Option DVal
  | [], _ => none
  | p :: ps, k => if p.1 = k then some p.2 else getEntries ps k

/-- Dict assignment: overwrite in place if the key exists, append otherwise. -/
def setEntries : List (String × DVal) → String → DVal → List (String × DVal)
  | [], k, v => [(k, v)]
  | p :: ps, k, v => if p.1 = k then (k, v) :: ps else p :: setEntries ps k v

/-- Read `d[k]` from a defaultdict: the stored value, or the factory value. -/
def getDD (d : DDict) (k : String) : DVal :=
  (getEntries d.entries k).getD d.dfl

/-- Write `d[k] = v`. -/
def setDD (d : DDict) (k : String) (v : DVal) : DDict :=
  ⟨d.dfl, setEntries d.entries k v⟩

/-- Python `d[k] += 1` on a defaultdict: fetch the current (or default)
value and add one.  Adding 1 to an int succeeds; adding 1 to a list raises
`TypeError`, modelled as `none`. -/
def incDD (d : DDict) (k : String) : Option DDict :=
  match getDD d k with
  | DVal.vint n => some (setDD d k (DVal.vint (n + 1)))
  | DVal.vlist _ => none

/-- The `new_links_count` state created by `HcfMiddleware.__init__` line 110:
`defaultdict(int)`, i.e. empty with integer default 0. -/
def initNewLinksCount : DDict := ⟨DVal.vint 0, []⟩

/-- The `new_links_count` state installed by `_save_new_links_count` line
224: `defaultdict(list)`, i.e. empty with the empty-list default. -/
def resetNewLinksCount : DDict := ⟨DVal.vlist [], []⟩

/-- Running the count increments of `process_spider_output` over a result
list: each captured item performs `self.new_links_count[slot] += 1`. -/
def runCounts (slotf : SpItem → String) : List SpItem → DDict → Option DDict
  | [], d => some d
  | it :: rest, d =>
    if isCaptured it = true then
      match incDD d (slotf it) with
      | some d₂ => runCounts slotf rest d₂
      | none => none
    else runCounts slotf rest d

lemma getEntries_setEntries (es : List (String × DVal)) (k : String) (v : DVal)
    (s : String) :
    getEntries (setEntries es k v) s = if s = k then some v else getEntries es s := by
  induction es with
  | nil =>
    by_cases h : s = k
    · simp [setEntries, getEntries, h]
    · have hks : ¬ (k = s) := fun hk => h hk.symm
      simp [setEntries, getEntries, h, hks]
  | cons p ps ih =>
    by_cases hp : p.1 = k
    · by_cases hs : s = k
      · simp [setEntries, getEntries, hp, hs]
      · have hks : ¬ (k = s) := fun hk => hs hk.symm
        have hps : ¬ (p.1 = s) := by rw [hp]; exact hks
        simp [setEntries, getEntries, hp, hs, hks, hps]
    · by_cases hs : s = k
      · subst hs
        simp [setEntries, getEntries, hp, ih]
      · simp [setEntries, getEntries, hp, hs, ih]

lemma getDD_setDD (d : DDict) (k : String) (v : DVal) (s : String) :
    getDD (setDD d k v) s = if s = k then v else getDD d s := by
  by_cases h : s = k <;>
    simp [getDD, setDD, getEntries_setEntries, h]

lemma incDD_counts (d : DDict) (f : String → Int)
    (hf : ∀ s, getDD d s = DVal.vint (f s)) (k : String) :
    ∃ d₂, incDD d k = some d₂
      ∧ ∀ s, getDD d₂ s = DVal.vint (if s = k then f s + 1 else f s) := by
  refine ⟨setDD d k (DVal.vint (f k + 1)), ?_, ?_⟩
  · simp [incDD, hf k]
  · intro s
    rw [getDD_setDD]
    by_cases h : s = k
    · subst h; simp
    · simp [h, hf s]

lemma runCounts_counts (slotf : SpItem → String) (items : List SpItem)
    (d : DDict) (f : String → Int) (hf : ∀ s, getDD d s = DVal.vint (f s)) :
    ∃ d₂, runCounts slotf items d = some d₂
      ∧ ∀ s, getDD d₂ s = DVal.vint (f s +
          (((items.filter isCaptured).filter
            (fun it => decide (slotf it = s))).length : Int)) := by
  induction items generalizing d f with
  | nil =>
    refine ⟨d, rfl, fun s => ?_⟩
    simpa using hf s
  | cons it rest ih =>
    by_cases hc : isCaptured it = true
    · rcases incDD_counts d f hf (slotf it) with ⟨d₁, hinc, hd₁⟩
      rcases ih d₁ _ hd₁ with ⟨d₂, hrun, hd₂⟩
      refine ⟨d₂, ?_, fun s => ?_⟩
      · simp [runCounts, hc, hinc, hrun]
      · rw [hd₂ s]
        congr 1
        by_cases hs : slotf it = s
        · have h1 : ((it :: rest).filter isCaptured).filter
              (fun x => decide (slotf x = s)) =
              it :: ((rest.filter isCaptured).filter
                (fun x => decide (slotf x = s))) := by
            simp [List.filter_cons, hc, hs]
          rw [if_pos hs.symm, h1, List.length_cons]
          push_cast
          ring
        · have h1 : ((it :: rest).filter isCaptured).filter
              (fun x => decide (slotf x = s)) =
              (rest.filter isCaptured).filter
                (fun x => decide (slotf x = s)) := by
            simp [List.filter_cons, hc, hs]
          rw [if_neg (fun h => hs h.symm), h1]
    · rcases ih d f hf with ⟨d₂, hrun, hd₂⟩
      refine ⟨d₂, by simp [runCounts, hc, hrun], fun s => ?_⟩
      rw [hd₂ s]
      congr 2
      simp [List.filter_cons, hc]

/-- C9: over a crawl-loop result list, the middleware issues exactly one
`fclient.add` call per captured item, synchronously in stream order, each
carrying the fingerprint record of that single item (the url under the key fp,
merged with its
`hcf_params`); and the only state retained is the per-slot integer count,
which ends at exactly the number of captured items routed to each slot. -/
theorem discovery_single_add_and_count (frontier : String)
    (slotf : SpItem → String) (items : List SpItem) :
    addCallsOf (process_spider_output frontier slotf items) =
      (items.filter isCaptured).map
        (fun it => (frontier, slotf it, [fpRecord (urlOf it) (paramsOf it)]))
    ∧ ∃ d, runCounts slotf items initNewLinksCount = some d
        ∧ ∀ s, getDD d s = DVal.vint
            ((((items.filter isCaptured).filter
              (fun it => decide (slotf it = s))).length : Int)) := by
  constructor
  · induction items with
    | nil => rfl
    | cons it rest ih =>
      have hstep : process_spider_output frontier slotf (it :: rest) =
          processItem frontier slotf it ++
            process_spider_output frontier slotf rest := by
        simp [process_spider_output]
      rw [hstep, addCallsOf_append, addCallsOf_processItem, List.filter_cons]
      by_cases hc : isCaptured it <;> simp [hc, ih]
  · rcases runCounts_counts slotf items initNewLinksCount (fun _ => 0)
      (fun _ => rfl) with ⟨d, hrun, hd⟩
    refine ⟨d, hrun, fun s => ?_⟩
    rw [hd s]
    norm_num

/-- C10 evaluated at its failing input: the state installed by the
clean-finish flush differs from the construction state — its missing-key
default is the empty list, not the integer 0 — so the very next
`new_links_count[slot] += 1` for a fresh slot raises `TypeError` where the
same increment on the construction state yields count 1. -/
theorem new_links_reset_wrong_factory :
    resetNewLinksCount ≠ initNewLinksCount
    ∧ incDD initNewLinksCount "7" =
        some ⟨DVal.vint 0, [("7", DVal.vint 1)]⟩
    ∧ incDD resetNewLinksCount "7" = none := by
  refine ⟨by decide, rfl, rfl⟩

end Scrapylib
